import Mathlib

/-!
Verification of the boids flocking engine.

The development embeds the canonical simulation engine of this repository
(the final draft in `src/main.ts`: the `Boid` force model, the integrator and
the space-bucket spatial index) together with the brute-force neighbor scan
`World.getNearBoidsQuadratic` from `src/boid.ts`.

Numeric conventions: the spatial-index arithmetic (clamping, flooring,
squared distances) is embedded over `ℚ` and is fully executable; the force
model and integrator, which use square roots, are embedded over `ℝ`.
JavaScript `Math.floor` is `Int.floor`, `Math.min`/`Math.max` are `min`/`max`,
and object identity (`===`) on agents is modelled by a numeric `id` field.
Arrays are modelled as unbounded lists (the JS 2^32 length limit is ignored);
assigning a negative or non-finite length to an array throws a `RangeError`,
which is modelled as `none`.
-/

namespace Grid

/-- `square` from `src/main.ts`. -/
def square (x : ℚ) : ℚ := x * x

/-- An agent as seen by the spatial index: its identity and position. -/
structure BoidPos where
  id : ℕ
  x : ℚ
  y : ℚ
deriving DecidableEq

/-- `boidDistanceSq` from `src/main.ts`. -/
def boidDistanceSq (boidA boidB : BoidPos) : ℚ :=
  square (boidA.x - boidB.x) + square (boidA.y - boidB.y)

/-- `World.xToBucket` from `src/main.ts`: clamp the coordinate to
`[0, width]`, then divide by the bucket size and floor. -/
def xToBucket (width bucketSize xpos : ℚ) : ℤ :=
  ⌊min width (max 0 xpos) / bucketSize⌋

/-- `World.yToBucket` from `src/main.ts`. -/
def yToBucket (height bucketSize ypos : ℚ) : ℤ :=
  ⌊min height (max 0 ypos) / bucketSize⌋

/-- `World.resetSpaceBuckets` from `src/main.ts`.  The code computes
`numXBuckets = Math.floor(width / bucketSize) + 1` (and similarly for y) and
resizes the bucket array with plain length assignments; it performs no
validity check of its own.  In JS, `width / 0` is `Infinity` (or `NaN` for
`0 / 0`), and assigning a negative or non-finite array length throws a
`RangeError`; both are modelled as `none`.  When `numXBuckets = 0` the
column loop never runs, `numYBuckets` is never used as a length, and the
call silently produces an empty grid.  On success the result is the pair
(number of columns, number of rows). -/
def resetSpaceBuckets (width height bucketSize : ℚ) : Option (ℕ × ℕ) :=
  if bucketSize = 0 then none
  else
    let numXBuckets : ℤ := ⌊width / bucketSize⌋ + 1
    if numXBuckets < 0 then none
    else if numXBuckets = 0 then some (0, 0)
    else
      let numYBuckets : ℤ := ⌊height / bucketSize⌋ + 1
      if numYBuckets < 0 then none
      else some (numXBuckets.toNat, numYBuckets.toNat)

/-- Helper: with a positive bucket size and positive dimensions,
`resetSpaceBuckets` succeeds and allocates `⌊w/s⌋+1` columns and `⌊h/s⌋+1`
rows. -/
theorem resetSpaceBuckets_pos (w h s : ℚ) (hs : 0 < s) (hw : 0 < w) (hh : 0 < h) :
    resetSpaceBuckets w h s = some ((⌊w / s⌋ + 1).toNat, (⌊h / s⌋ + 1).toNat) := by
  have hx : (0 : ℤ) ≤ ⌊w / s⌋ := Int.floor_nonneg.mpr (le_of_lt (div_pos hw hs))
  have hy : (0 : ℤ) ≤ ⌊h / s⌋ := Int.floor_nonneg.mpr (le_of_lt (div_pos hh hs))
  unfold resetSpaceBuckets
  rw [if_neg (ne_of_gt hs)]
  simp only []
  rw [if_neg (by omega), if_neg (by omega), if_neg (by omega)]

/-- Claim C7, counterexample: calling the reset with the non-positive bucket
size -800 in an 800 by 600 world does not fail; it silently reallocates an
empty grid (zero columns), so a non-positive bucket size is not always
rejected. -/
theorem resetSpaceBuckets_silent_counterexample :
    (-800 : ℚ) < 0 ∧ resetSpaceBuckets 800 600 (-800) = some (0, 0) := by
  refine ⟨by norm_num, ?_⟩
  have hfloor : ⌊(800 : ℚ) / (-800)⌋ = -1 := by
    norm_num
  unfold resetSpaceBuckets
  rw [if_neg (by norm_num)]
  simp only [hfloor]
  norm_num

/-- Claim C7, amended: for every positive bucketSize and positive world
dimensions the reset succeeds and reallocates the grid, and (given positive
dimensions) a failure can only happen for a non-positive bucketSize; however
a non-positive bucketSize is not always rejected (see the counterexample:
when `bucketSize ≤ -width` the computed column count is zero and the reset
silently produces an empty grid). -/
theorem resetSpaceBuckets_amended (w h s : ℚ) (hw : 0 < w) (hh : 0 < h) :
    (0 < s → resetSpaceBuckets w h s = some ((⌊w / s⌋ + 1).toNat, (⌊h / s⌋ + 1).toNat)) ∧
    (resetSpaceBuckets w h s = none → s ≤ 0) := by
  constructor
  · intro hs
    exact resetSpaceBuckets_pos w h s hs hw hh
  · intro hnone
    by_contra hpos
    rw [resetSpaceBuckets_pos w h s (lt_of_not_ge hpos) hw hh] at hnone
    exact Option.noConfusion hnone

/-- Witness for C7's amended theorem at bucket size 25 in an 800 by 600
world. -/
theorem resetSpaceBuckets_amended_witness :
    (0 : ℚ) < 800 ∧ (0 : ℚ) < 600 ∧ (0 : ℚ) < 25 ∧
      resetSpaceBuckets 800 600 25 = some (33, 25) := by
  refine ⟨by norm_num, by norm_num, by norm_num, ?_⟩
  have h := (resetSpaceBuckets_amended 800 600 25 (by norm_num) (by norm_num)).1 (by norm_num)
  have hx : ⌊(800 : ℚ) / 25⌋ = 32 := by norm_num
  have hy : ⌊(600 : ℚ) / 25⌋ = 24 := by norm_num
  rw [hx, hy] at h
  simpa using h

/-- Claim C8, counterexample: in an 810 by 600 world with bucket size 25 the
code allocates `⌊810/25⌋ + 1 = 33` columns, not `⌈810/25⌉ + 1 = 34` as the
claim's ceiling formula would require. -/
theorem resetSpaceBuckets_dims_counterexample :
    resetSpaceBuckets 810 600 25 = some (33, 25) ∧
      (33 : ℕ) ≠ (⌈(810 : ℚ) / 25⌉ + 1).toNat := by
  constructor
  · have h := resetSpaceBuckets_pos 810 600 25 (by norm_num) (by norm_num) (by norm_num)
    have hx : ⌊(810 : ℚ) / 25⌋ = 32 := by norm_num
    have hy : ⌊(600 : ℚ) / 25⌋ = 24 := by norm_num
    rw [hx, hy] at h
    simpa using h
  · have hc : ⌈(810 : ℚ) / 25⌉ = 33 := by
      rw [Int.ceil_eq_iff]
      norm_num
    rw [hc]
    decide

/-- Claim C8, amended: for every positive bucketSize and positive dimensions
the grid allocated by the reset has exactly `⌊width/bucketSize⌋ + 1` columns
and `⌊height/bucketSize⌋ + 1` rows (floor, not ceiling), and every agent's
bucket coordinates `(⌊clamp(x,0,width)/bucketSize⌋, ⌊clamp(y,0,height)/bucketSize⌋)`
always lie inside those grid bounds. -/
theorem resetSpaceBuckets_dims_amended (w h s : ℚ) (hs : 0 < s) (hw : 0 < w) (hh : 0 < h) :
    resetSpaceBuckets w h s = some ((⌊w / s⌋ + 1).toNat, (⌊h / s⌋ + 1).toNat) ∧
    (∀ xpos : ℚ, 0 ≤ xToBucket w s xpos ∧ xToBucket w s xpos < ⌊w / s⌋ + 1) ∧
    (∀ ypos : ℚ, 0 ≤ yToBucket h s ypos ∧ yToBucket h s ypos < ⌊h / s⌋ + 1) := by
  refine ⟨resetSpaceBuckets_pos w h s hs hw hh, ?_, ?_⟩
  · intro xpos
    constructor
    · apply Int.floor_nonneg.mpr
      apply div_nonneg _ (le_of_lt hs)
      exact le_min (le_of_lt hw) (le_max_left 0 xpos)
    · have : xToBucket w s xpos ≤ ⌊w / s⌋ := by
        apply Int.floor_le_floor
        exact div_le_div_of_nonneg_right (min_le_left _ _) hs.le
      omega
  · intro ypos
    constructor
    · apply Int.floor_nonneg.mpr
      apply div_nonneg _ (le_of_lt hs)
      exact le_min (le_of_lt hh) (le_max_left 0 ypos)
    · have : yToBucket h s ypos ≤ ⌊h / s⌋ := by
        apply Int.floor_le_floor
        exact div_le_div_of_nonneg_right (min_le_left _ _) hs.le
      omega

/-- Witness for C8's amended theorem: an 810 by 600 world with bucket size
25 gets a 33 by 25 grid, and the far-outside position (9000, -5) still maps
into the grid. -/
theorem resetSpaceBuckets_dims_amended_witness :
    (0 : ℚ) < 25 ∧ (0 : ℚ) < 810 ∧ (0 : ℚ) < 600 ∧
      resetSpaceBuckets 810 600 25 = some (33, 25) ∧
      0 ≤ xToBucket 810 25 9000 ∧ xToBucket 810 25 9000 < 33 ∧
      0 ≤ yToBucket 600 25 (-5) ∧ yToBucket 600 25 (-5) < 25 := by
  have h := resetSpaceBuckets_dims_amended 810 600 25 (by norm_num) (by norm_num) (by norm_num)
  have hx : ⌊(810 : ℚ) / 25⌋ = 32 := by norm_num
  have hy : ⌊(600 : ℚ) / 25⌋ = 24 := by norm_num
  obtain ⟨h1, h2, h3⟩ := h
  rw [hx, hy] at h1
  have h2' := h2 9000
  have h3' := h3 (-5)
  rw [hx] at h2'
  rw [hy] at h3'
  refine ⟨by norm_num, by norm_num, by norm_num, by simpa using h1, h2'.1, by omega, h3'.1, by omega⟩

/-- `World.getNearBoidsQuadratic` from `src/boid.ts`: scan every agent,
skip the querying agent itself, and keep those with squared distance
strictly below the squared awareness radius. -/
def getNearBoidsQuadratic (awarenessRadius : ℚ) (boids : List BoidPos) (boid : BoidPos) :
    List BoidPos :=
  boids.filter (fun otherBoid =>
    !(otherBoid.id == boid.id) && decide (boidDistanceSq boid otherBoid < square awarenessRadius))

/-- One cell of the grid built by `World.assignSpaceBuckets` in
`src/main.ts`: the agents (in list order) whose clamped position maps to
bucket `(i, j)`. -/
def spaceBucket (width height bucketSize : ℚ) (boids : List BoidPos) (i j : ℤ) : List BoidPos :=
  boids.filter (fun b =>
    decide (xToBucket width bucketSize b.x = i) && decide (yToBucket height bucketSize b.y = j))

/-- The inclusive integer range `[lo, hi]` scanned by the nested
`for (let i = minBucket; i <= maxBucket; i++)` loops. -/
def intRange (lo hi : ℤ) : List ℤ :=
  (List.range (hi + 1 - lo).toNat).map (fun k : ℕ => lo + (k : ℤ))

/-- `World.getNearBoids` from `src/main.ts`: scan every bucket in the
bounding box of the awareness square, skip the querying agent, and keep
each other agent paired with its squared distance when that distance is
strictly below the cached squared radius. -/
def getNearBoids (width height bucketSize awarenessRadius awarenessRadiusSq : ℚ)
    (boids : List BoidPos) (boid : BoidPos) : List (BoidPos × ℚ) :=
  (intRange (xToBucket width bucketSize (boid.x - awarenessRadius))
            (xToBucket width bucketSize (boid.x + awarenessRadius))).flatMap (fun i =>
    (intRange (yToBucket height bucketSize (boid.y - awarenessRadius))
              (yToBucket height bucketSize (boid.y + awarenessRadius))).flatMap (fun j =>
      (spaceBucket width height bucketSize boids i j).filterMap (fun otherBoid =>
        if otherBoid.id = boid.id then none
        else if boidDistanceSq boid otherBoid < awarenessRadiusSq then
          some (otherBoid, boidDistanceSq boid otherBoid)
        else none)))

theorem mem_intRange {lo hi i : ℤ} : i ∈ intRange lo hi ↔ lo ≤ i ∧ i ≤ hi := by
  simp only [intRange, List.mem_map, List.mem_range]
  constructor
  · rintro ⟨k, hk, rfl⟩
    omega
  · rintro ⟨h1, h2⟩
    exact ⟨(i - lo).toNat, by omega, by omega⟩

theorem nodup_intRange (lo hi : ℤ) : (intRange lo hi).Nodup := by
  unfold intRange
  apply List.Nodup.map _ (List.nodup_range _)
  intro a b hab
  simp only [add_right_inj, Nat.cast_inj] at hab
  exact hab

/-- Projecting the bucketed query's output pairs to their agents gives a
plain filter of the bucket contents. -/
theorem map_fst_filterMap_near (radiusSq : ℚ) (boid : BoidPos) (l : List BoidPos) :
    (l.filterMap (fun otherBoid =>
        if otherBoid.id = boid.id then none
        else if boidDistanceSq boid otherBoid < radiusSq then
          some (otherBoid, boidDistanceSq boid otherBoid)
        else none)).map Prod.fst
      = l.filter (fun otherBoid =>
          !(otherBoid.id == boid.id) && decide (boidDistanceSq boid otherBoid < radiusSq)) := by
  induction l with
  | nil => rfl
  | cons a l ih =>
    by_cases h1 : a.id = boid.id
    · simp [List.filterMap_cons, List.filter_cons, h1, ih]
    · by_cases h2 : boidDistanceSq boid a < radiusSq
      · simp [List.filterMap_cons, List.filter_cons, h1, h2, ih]
      · simp [List.filterMap_cons, List.filter_cons, h1, h2, ih]

theorem xToBucket_mono (w s : ℚ) (hs : 0 < s) {a b : ℚ} (hab : a ≤ b) :
    xToBucket w s a ≤ xToBucket w s b := by
  apply Int.floor_le_floor
  apply div_le_div_of_nonneg_right _ hs.le
  exact min_le_min le_rfl (max_le_max le_rfl hab)

theorem yToBucket_mono (h s : ℚ) (hs : 0 < s) {a b : ℚ} (hab : a ≤ b) :
    yToBucket h s a ≤ yToBucket h s b := by
  apply Int.floor_le_floor
  apply div_le_div_of_nonneg_right _ hs.le
  exact min_le_min le_rfl (max_le_max le_rfl hab)

/-- Any agent strictly within the awareness radius of the querying agent has
its bucket inside the bounding box scanned by `getNearBoids`. -/
theorem bucket_mem_box (w h s r : ℚ) (hs : 0 < s) (hr : 0 ≤ r) (boid otherBoid : BoidPos)
    (hnear : boidDistanceSq boid otherBoid < square r) :
    xToBucket w s (boid.x - r) ≤ xToBucket w s otherBoid.x ∧
    xToBucket w s otherBoid.x ≤ xToBucket w s (boid.x + r) ∧
    yToBucket h s (boid.y - r) ≤ yToBucket h s otherBoid.y ∧
    yToBucket h s (boid.y + r) ≥ yToBucket h s otherBoid.y := by
  have hx : square (boid.x - otherBoid.x) ≤ boidDistanceSq boid otherBoid := by
    have : 0 ≤ square (boid.y - otherBoid.y) := mul_self_nonneg _
    simp only [boidDistanceSq]
    linarith
  have hy : square (boid.y - otherBoid.y) ≤ boidDistanceSq boid otherBoid := by
    have : 0 ≤ square (boid.x - otherBoid.x) := mul_self_nonneg _
    simp only [boidDistanceSq]
    linarith
  have hx1 : boid.x - r ≤ otherBoid.x := by
    by_contra hcon
    push_neg at hcon
    have : r < boid.x - otherBoid.x := by linarith
    have : square r < square (boid.x - otherBoid.x) := by
      simp only [square]
      nlinarith
    simp only [square] at hx hnear this
    nlinarith
  have hx2 : otherBoid.x ≤ boid.x + r := by
    by_contra hcon
    push_neg at hcon
    have : r < otherBoid.x - boid.x := by linarith
    have : square r < square (boid.x - otherBoid.x) := by
      simp only [square]
      nlinarith
    simp only [square] at hx hnear this
    nlinarith
  have hy1 : boid.y - r ≤ otherBoid.y := by
    by_contra hcon
    push_neg at hcon
    have : r < boid.y - otherBoid.y := by linarith
    have : square r < square (boid.y - otherBoid.y) := by
      simp only [square]
      nlinarith
    simp only [square] at hy hnear this
    nlinarith
  have hy2 : otherBoid.y ≤ boid.y + r := by
    by_contra hcon
    push_neg at hcon
    have : r < otherBoid.y - boid.y := by linarith
    have : square r < square (boid.y - otherBoid.y) := by
      simp only [square]
      nlinarith
    simp only [square] at hy hnear this
    nlinarith
  exact ⟨xToBucket_mono w s hs hx1, xToBucket_mono w s hs hx2,
    yToBucket_mono h s hs hy1, yToBucket_mono h s hs hy2⟩

/-- Splitting a filter along two mutually exclusive predicates is a
permutation of the filter along their disjunction. -/
theorem filter_or_of_disjoint {α : Type} (l : List α) (p q : α → Bool)
    (hdisj : ∀ a ∈ l, ¬(p a = true ∧ q a = true)) :
    (l.filter p ++ l.filter q).Perm (l.filter (fun a => p a || q a)) := by
  induction l with
  | nil => simp
  | cons a l ih =>
    have ih' := ih (fun b hb => hdisj b (List.mem_cons_of_mem _ hb))
    by_cases hp : p a = true
    · have hq : q a = false := by
        rcases Bool.eq_false_or_eq_true (q a) with h | h
        · exact absurd ⟨hp, h⟩ (hdisj a (List.mem_cons_self _ _))
        · exact h
      simp only [List.filter_cons, hp, hq, Bool.or_self, if_true, if_false, Bool.false_or,
        Bool.true_or, cond_true, cond_false]
      simpa using ih'.cons a
    · have hp' : p a = false := Bool.eq_false_iff.mpr hp
      by_cases hq : q a = true
      · simp only [List.filter_cons, hp', hq, Bool.false_or, cond_true, cond_false]
        exact List.perm_middle.trans (ih'.cons a)
      · have hq' : q a = false := Bool.eq_false_iff.mpr hq
        simp only [List.filter_cons, hp', hq', Bool.false_or, cond_false]
        exact ih'

/-- A scan over distinct keys, keeping in each round the elements whose key
matches that round, is a permutation of a single filter by key membership. -/
theorem flatMap_filter_key_perm {α : Type} (keys : List ℤ) (hk : keys.Nodup)
    (l : List α) (p : α → Bool) (key : α → ℤ) :
    (keys.flatMap (fun k => l.filter (fun a => p a && decide (key a = k)))).Perm
      (l.filter (fun a => p a && decide (key a ∈ keys))) := by
  induction keys with
  | nil => simp
  | cons k ks ih =>
    simp only [List.flatMap_cons]
    have hk1 : k ∉ ks := (List.nodup_cons.mp hk).1
    have ih' := ih (List.nodup_cons.mp hk).2
    refine ((List.Perm.refl _).append ih').trans ?_
    refine (filter_or_of_disjoint l _ _ ?_).trans ?_
    · rintro a _ ⟨h1, h2⟩
      simp only [Bool.and_eq_true, decide_eq_true_eq] at h1 h2
      exact hk1 (h1.2 ▸ h2.2)
    · apply List.Perm.of_eq
      apply List.filter_congr
      intro a _
      cases hpa : p a
      · simp
      · simp [List.mem_cons]

theorem flatMap_perm_of_perm {α β : Type} (K : List α) (f g : α → List β)
    (h : ∀ a ∈ K, (f a).Perm (g a)) : (K.flatMap f).Perm (K.flatMap g) := by
  induction K with
  | nil => simp
  | cons a K ih =>
    simp only [List.flatMap_cons]
    exact (h a (List.mem_cons_self _ _)).append (ih (fun b hb => h b (List.mem_cons_of_mem _ hb)))

/-- Claim C1: for every agent set, querying agent, positive bucket size and
non-negative awareness radius, the bucketed neighbor query `getNearBoids`
(with the squared-radius cache consistent, i.e. equal to the square of the
radius) returns exactly the same agents, up to order, as the brute-force
quadratic scan `getNearBoidsQuadratic` that keeps every other agent at
squared distance strictly below the squared radius. -/
theorem getNearBoids_perm_quadratic (w h s r : ℚ) (boids : List BoidPos) (boid : BoidPos)
    (hs : 0 < s) (hr : 0 ≤ r) :
    ((getNearBoids w h s r (square r) boids boid).map Prod.fst).Perm
      (getNearBoidsQuadratic r boids boid) := by
  have hstep1 : ((getNearBoids w h s r (square r) boids boid).map Prod.fst)
      = (intRange (xToBucket w s (boid.x - r)) (xToBucket w s (boid.x + r))).flatMap (fun i =>
          (intRange (yToBucket h s (boid.y - r)) (yToBucket h s (boid.y + r))).flatMap (fun j =>
            boids.filter (fun o =>
              ((!(o.id == boid.id) && decide (boidDistanceSq boid o < square r)) &&
                decide (xToBucket w s o.x = i)) && decide (yToBucket h s o.y = j)))) := by
    unfold getNearBoids
    simp only [List.map_flatMap, map_fst_filterMap_near, spaceBucket, List.filter_filter,
      ← Bool.and_assoc]
  have hstep2 : ∀ i : ℤ,
      ((intRange (yToBucket h s (boid.y - r)) (yToBucket h s (boid.y + r))).flatMap (fun j =>
        boids.filter (fun o =>
          ((!(o.id == boid.id) && decide (boidDistanceSq boid o < square r)) &&
            decide (xToBucket w s o.x = i)) && decide (yToBucket h s o.y = j)))).Perm
      (boids.filter (fun o =>
        ((!(o.id == boid.id) && decide (boidDistanceSq boid o < square r)) &&
          decide (xToBucket w s o.x = i)) &&
          decide (yToBucket h s o.y ∈
            intRange (yToBucket h s (boid.y - r)) (yToBucket h s (boid.y + r))))) :=
    fun i => flatMap_filter_key_perm _ (nodup_intRange _ _) boids _ _
  have hstep3 : ∀ i : ℤ,
      boids.filter (fun o =>
        ((!(o.id == boid.id) && decide (boidDistanceSq boid o < square r)) &&
          decide (xToBucket w s o.x = i)) &&
          decide (yToBucket h s o.y ∈
            intRange (yToBucket h s (boid.y - r)) (yToBucket h s (boid.y + r))))
      = boids.filter (fun o =>
        ((!(o.id == boid.id) && decide (boidDistanceSq boid o < square r)) &&
          decide (yToBucket h s o.y ∈
            intRange (yToBucket h s (boid.y - r)) (yToBucket h s (boid.y + r)))) &&
          decide (xToBucket w s o.x = i)) := by
    intro i
    apply List.filter_congr
    intro o _
    cases h1 : (!(o.id == boid.id) && decide (boidDistanceSq boid o < square r)) <;>
      cases h2 : decide (xToBucket w s o.x = i) <;>
        cases h3 : decide (yToBucket h s o.y ∈
          intRange (yToBucket h s (boid.y - r)) (yToBucket h s (boid.y + r))) <;>
          simp [h1, h2, h3]
  have hstep4 :
      ((intRange (xToBucket w s (boid.x - r)) (xToBucket w s (boid.x + r))).flatMap (fun i =>
        boids.filter (fun o =>
          ((!(o.id == boid.id) && decide (boidDistanceSq boid o < square r)) &&
            decide (yToBucket h s o.y ∈
              intRange (yToBucket h s (boid.y - r)) (yToBucket h s (boid.y + r)))) &&
            decide (xToBucket w s o.x = i)))).Perm
      (boids.filter (fun o =>
        ((!(o.id == boid.id) && decide (boidDistanceSq boid o < square r)) &&
          decide (yToBucket h s o.y ∈
            intRange (yToBucket h s (boid.y - r)) (yToBucket h s (boid.y + r)))) &&
          decide (xToBucket w s o.x ∈
            intRange (xToBucket w s (boid.x - r)) (xToBucket w s (boid.x + r))))) :=
    flatMap_filter_key_perm _ (nodup_intRange _ _) boids _ _
  have hstep5 :
      boids.filter (fun o =>
        ((!(o.id == boid.id) && decide (boidDistanceSq boid o < square r)) &&
          decide (yToBucket h s o.y ∈
            intRange (yToBucket h s (boid.y - r)) (yToBucket h s (boid.y + r)))) &&
          decide (xToBucket w s o.x ∈
            intRange (xToBucket w s (boid.x - r)) (xToBucket w s (boid.x + r))))
      = getNearBoidsQuadratic r boids boid := by
    unfold getNearBoidsQuadratic
    apply List.filter_congr
    intro o _
    by_cases hnear : (!(o.id == boid.id) && decide (boidDistanceSq boid o < square r)) = true
    · have hd : boidDistanceSq boid o < square r := by
        simp only [Bool.and_eq_true, decide_eq_true_eq] at hnear
        exact hnear.2
      obtain ⟨b1, b2, b3, b4⟩ := bucket_mem_box w h s r hs hr boid o hd
      have hx : xToBucket w s o.x ∈
          intRange (xToBucket w s (boid.x - r)) (xToBucket w s (boid.x + r)) :=
        mem_intRange.mpr ⟨b1, b2⟩
      have hy : yToBucket h s o.y ∈
          intRange (yToBucket h s (boid.y - r)) (yToBucket h s (boid.y + r)) :=
        mem_intRange.mpr ⟨b3, b4⟩
      simp [hnear, hx, hy]
    · have hnear' := Bool.eq_false_iff.mpr hnear
      simp [hnear']
  rw [hstep1, ← hstep5]
  refine List.Perm.trans ?_ hstep4
  exact flatMap_perm_of_perm _ _ _
    (fun i _ => (hstep2 i).trans (List.Perm.of_eq (hstep3 i)))

/-- Witness for C1 on a concrete three-agent world: bucket size 25, radius
10, query agent 0 at (10, 10). -/
theorem getNearBoids_perm_quadratic_witness :
    (0 : ℚ) < 25 ∧ (0 : ℚ) ≤ 10 ∧
    ((getNearBoids 100 100 25 10 (square 10)
        [⟨0, 10, 10⟩, ⟨1, 15, 10⟩, ⟨2, 90, 90⟩] ⟨0, 10, 10⟩).map Prod.fst).Perm
      (getNearBoidsQuadratic 10 [⟨0, 10, 10⟩, ⟨1, 15, 10⟩, ⟨2, 90, 90⟩] ⟨0, 10, 10⟩) :=
  ⟨by norm_num, by norm_num,
    getNearBoids_perm_quadratic 100 100 25 10 _ _ (by norm_num) (by norm_num)⟩

end Grid

namespace Engine

noncomputable section

/-- `square` from `src/main.ts`, over the reals. -/
def square (x : ℝ) : ℝ := x * x

/-- `BoidProperties` from `src/main.ts` (simulation-relevant fields). -/
structure BoidProperties where
  minSpeed : ℝ
  maxSpeed : ℝ
  maxAcceleration : ℝ
  awarenessRadius : ℝ
  separation : ℝ
  cohesion : ℝ
  alignment : ℝ
  linearDrag : ℝ
  mouseAvoidance : ℝ
  edgeAvoidance : ℝ
  inverseSquareAvoidance : Bool

/-- `DerivedBoidProperties` from `src/main.ts`: the cached squares. -/
structure DerivedBoidProperties where
  maxAccelerationSq : ℝ
  awarenessRadiusSq : ℝ

/-- `WorldProperties` from `src/main.ts` (simulation-relevant fields). -/
structure WorldProperties where
  gravity : ℝ
  width : ℝ
  height : ℝ
  continuousCohorts : Bool
  homogenousCohorts : Bool
  circularBorder : Bool

/-- A `Boid` from `src/main.ts`: position, velocity, pending acceleration,
cached speed, and the cohort identity used for gating (the display color
plays no role in the dynamics). -/
structure Boid where
  x : ℝ
  y : ℝ
  vx : ℝ
  vy : ℝ
  deltaVx : ℝ
  deltaVy : ℝ
  speed : ℝ
  cohort : ℝ

/-- `Boid.edgeAvoidance` from `src/main.ts`: the scalar push as a function
of the remaining distance to a boundary. -/
def edgeAvoidanceForce (bp : BoidProperties) (edgeDistance : ℝ) : ℝ :=
  if edgeDistance ≤ 1 then bp.edgeAvoidance
  else if bp.inverseSquareAvoidance then bp.edgeAvoidance / (edgeDistance * edgeDistance)
  else bp.edgeAvoidance / edgeDistance

/-- The shared falloff factor of `src/main.ts` (`distanceFactor` in the
separation and mouse-avoidance terms): `distSq * sqrt distSq` when
`inverseSquareAvoidance` is set, else `distSq`. -/
def distanceFactor (bp : BoidProperties) (distanceSq : ℝ) : ℝ :=
  if bp.inverseSquareAvoidance then distanceSq * Real.sqrt distanceSq else distanceSq

/-- The gravity step of `Boid.updateAcceleration` in `src/main.ts`
(lines 561-564): guarded by `gravity != 0`. -/
def accGravity (wp : WorldProperties) (d : ℝ × ℝ) : ℝ × ℝ :=
  if wp.gravity ≠ 0 then (d.1, d.2 + wp.gravity) else d

/-- The linear-drag step of `Boid.updateAcceleration` in `src/main.ts`. -/
def accLinearDrag (bp : BoidProperties) (self : Boid) (d : ℝ × ℝ) : ℝ × ℝ :=
  if bp.linearDrag > 0 then
    (d.1 - self.vx * bp.linearDrag, d.2 - self.vy * bp.linearDrag)
  else d

/-- The edge-avoidance step of `Boid.updateAcceleration` in `src/main.ts`. -/
def accEdgeAvoidance (bp : BoidProperties) (wp : WorldProperties) (self : Boid)
    (d : ℝ × ℝ) : ℝ × ℝ :=
  if wp.circularBorder then
    let centerWidth := 0.5 * wp.width
    let centerHeight := 0.5 * wp.height
    let distanceFromCenter :=
      Real.sqrt (square (self.x - centerWidth) + square (self.y - centerHeight))
    let distanceFromEdge := 0.5 * min wp.width wp.height - distanceFromCenter
    let edgeAvoidanceScale := edgeAvoidanceForce bp distanceFromEdge / distanceFromCenter
    (d.1 + edgeAvoidanceScale * (centerWidth - self.x),
     d.2 + edgeAvoidanceScale * (centerHeight - self.y))
  else
    (d.1 + edgeAvoidanceForce bp self.x - edgeAvoidanceForce bp (wp.width - self.x),
     d.2 + edgeAvoidanceForce bp self.y - edgeAvoidanceForce bp (wp.height - self.y))

/-- The running state of the neighbor loop in `Boid.updateAcceleration`:
the cohort-weighted sums, the effective neighbor count, and the
accumulator. -/
structure NeighborSums where
  sumX : ℝ
  sumY : ℝ
  sumVx : ℝ
  sumVy : ℝ
  numBoids : ℝ
  delta : ℝ × ℝ

/-- The continuous-mode cohort weight of `src/main.ts`: circular angular
distance mapped into `[0, 1]`, favoring small distance under homogeneous
cohorts and large distance otherwise. -/
def cohortWeight (wp : WorldProperties) (self otherBoid : Boid) : ℝ :=
  let degreesDistance :=
    if |otherBoid.cohort - self.cohort| > 180 then 360 - |otherBoid.cohort - self.cohort|
    else |otherBoid.cohort - self.cohort|
  if wp.homogenousCohorts then max (90 - degreesDistance) 0 / 90
  else max (degreesDistance - 90) 0 / 90

/-- One iteration of the neighbor loop of `Boid.updateAcceleration` in
`src/main.ts`: cohort-gated accumulation into the sums, then the
(unconditional) separation contribution. -/
def neighborStep (bp : BoidProperties) (wp : WorldProperties) (self : Boid)
    (acc : NeighborSums) (nb : Boid × ℝ) : NeighborSums :=
  let acc1 :=
    if wp.continuousCohorts then
      let weight := cohortWeight wp self nb.1
      { acc with
        sumX := acc.sumX + nb.1.x * weight
        sumY := acc.sumY + nb.1.y * weight
        sumVx := acc.sumVx + nb.1.vx * weight
        sumVy := acc.sumVy + nb.1.vy * weight
        numBoids := acc.numBoids + weight }
    else if (wp.homogenousCohorts ∧ nb.1.cohort = self.cohort) ∨
        (¬wp.homogenousCohorts ∧ nb.1.cohort ≠ self.cohort) then
      { acc with
        sumX := acc.sumX + nb.1.x
        sumY := acc.sumY + nb.1.y
        sumVx := acc.sumVx + nb.1.vx
        sumVy := acc.sumVy + nb.1.vy
        numBoids := acc.numBoids + 1 }
    else acc
  let separationScale := bp.separation / distanceFactor bp nb.2
  { acc1 with
    delta := (acc1.delta.1 + (self.x - nb.1.x) * separationScale,
              acc1.delta.2 + (self.y - nb.1.y) * separationScale) }

/-- The whole neighbor loop, starting from zero sums and the accumulator
value reached before the loop. -/
def neighborPhase (bp : BoidProperties) (wp : WorldProperties) (self : Boid)
    (nearBoids : List (Boid × ℝ)) (d : ℝ × ℝ) : NeighborSums :=
  nearBoids.foldl (neighborStep bp wp self) ⟨0, 0, 0, 0, 0, d⟩

/-- The cohesion-and-alignment step of `Boid.updateAcceleration` in
`src/main.ts` (lines 644-659), applied only when the effective neighbor
count is positive. -/
def accCohesionAlignment (bp : BoidProperties) (self : Boid) (s : NeighborSums) : ℝ × ℝ :=
  if s.numBoids > 0 then
    (s.delta.1 + (s.sumX / s.numBoids - self.x) * bp.cohesion +
       (s.sumVx / s.numBoids - self.vx) * bp.alignment,
     s.delta.2 + (s.sumY / s.numBoids - self.y) * bp.cohesion +
       (s.sumVy / s.numBoids - self.vy) * bp.alignment)
  else s.delta

/-- The pointer-avoidance step of `Boid.updateAcceleration` in `src/main.ts`
(lines 661-677): requires a nonzero `mouseAvoidance`, a supplied pointer,
and squared distance (floored at 1) strictly inside the cached squared
awareness radius. -/
def accMouseAvoidance (bp : BoidProperties) (dp : DerivedBoidProperties) (self : Boid)
    (mousePosition : Option (ℝ × ℝ)) (d : ℝ × ℝ) : ℝ × ℝ :=
  match mousePosition with
  | none => d
  | some m =>
    if bp.mouseAvoidance ≠ 0 then
      let diffX := self.x - m.1
      let diffY := self.y - m.2
      let distanceSq := max 1 (square diffX + square diffY)
      if distanceSq < dp.awarenessRadiusSq then
        let mouseAvoidScale := bp.mouseAvoidance / distanceFactor bp distanceSq
        (d.1 + diffX * mouseAvoidScale, d.2 + diffY * mouseAvoidScale)
      else d
    else d

/-- The final capping step of `Boid.updateAcceleration` in `src/main.ts`
(lines 679-686). -/
def capAcceleration (bp : BoidProperties) (dp : DerivedBoidProperties) (d : ℝ × ℝ) : ℝ × ℝ :=
  let deltaVMagnitudeSq := square d.1 + square d.2
  if deltaVMagnitudeSq > dp.maxAccelerationSq then
    let accelerationScale := bp.maxAcceleration / Real.sqrt deltaVMagnitudeSq
    (d.1 * accelerationScale, d.2 * accelerationScale)
  else d

/-- The accumulator value of `Boid.updateAcceleration` just before the cap:
gravity, drag, edge avoidance, the neighbor loop, cohesion/alignment, and
pointer avoidance, in source order, starting from the cleared `(0, 0)`. -/
def uncappedDelta (bp : BoidProperties) (dp : DerivedBoidProperties) (wp : WorldProperties)
    (self : Boid) (nearBoids : List (Boid × ℝ)) (mousePosition : Option (ℝ × ℝ)) : ℝ × ℝ :=
  accMouseAvoidance bp dp self mousePosition
    (accCohesionAlignment bp self
      (neighborPhase bp wp self nearBoids
        (accEdgeAvoidance bp wp self
          (accLinearDrag bp self
            (accGravity wp (0, 0))))))

/-- `Boid.updateAcceleration` from `src/main.ts` (lines 557-687): clears the
pending acceleration, accumulates all force terms, caps the result, and
writes it back into `deltaVx`/`deltaVy`. -/
def updateAcceleration (bp : BoidProperties) (dp : DerivedBoidProperties)
    (wp : WorldProperties) (self : Boid) (nearBoids : List (Boid × ℝ))
    (mousePosition : Option (ℝ × ℝ)) : Boid :=
  let d := capAcceleration bp dp (uncappedDelta bp dp wp self nearBoids mousePosition)
  { self with deltaVx := d.1, deltaVy := d.2 }

/-- `Boid.updatePosition` from `src/main.ts` (lines 689-693). -/
def updatePosition (b : Boid) : Boid :=
  { b with x := b.x + (b.vx + 0.5 * b.deltaVx), y := b.y + (b.vy + 0.5 * b.deltaVy) }

/-- `Boid.updateVelocity` from `src/main.ts` (lines 695-712): add the pending
acceleration, recompute the cached speed, and clamp nonzero speeds into
`[minSpeed, maxSpeed]`; an exactly-zero speed is left alone. -/
def updateVelocity (bp : BoidProperties) (b : Boid) : Boid :=
  let vx := b.vx + b.deltaVx
  let vy := b.vy + b.deltaVy
  let speed := Real.sqrt (square vx + square vy)
  if speed < bp.minSpeed ∧ speed > 0 then
    let speedScale := bp.minSpeed / speed
    { b with vx := vx * speedScale, vy := vy * speedScale, speed := bp.minSpeed }
  else if speed > bp.maxSpeed then
    let speedScale := bp.maxSpeed / speed
    { b with vx := vx * speedScale, vy := vy * speedScale, speed := bp.maxSpeed }
  else
    { b with vx := vx, vy := vy, speed := speed }

/-- The per-agent integration step of `World.moveBoids` in `src/main.ts`:
`updatePosition` followed by `updateVelocity`. -/
def integrate (bp : BoidProperties) (b : Boid) : Boid :=
  updateVelocity bp (updatePosition b)

end

/-- Claim C4: the gravity term of `updateAcceleration` adds the vector
`(0, gravity)` to the accumulator for every nonzero gravity (positive or
negative), and adds nothing when gravity is zero.  (This holds for the
canonical engine in `src/main.ts`, whose guard is `gravity != 0`; the
earlier draft in `src/boid.ts` used `gravity > 0` instead.) -/
theorem accGravity_adds_gravity (wp : WorldProperties) (d : ℝ × ℝ) :
    (wp.gravity ≠ 0 → accGravity wp d = (d.1 + 0, d.2 + wp.gravity)) ∧
    (wp.gravity = 0 → accGravity wp d = d) := by
  constructor
  · intro hg
    simp [accGravity, hg]
  · intro hg
    simp [accGravity, hg]

/-- Witness for C4 at gravity 5 and gravity 0. -/
theorem accGravity_adds_gravity_witness :
    accGravity ⟨5, 100, 100, false, true, false⟩ ((1 : ℝ), (2 : ℝ)) = (1 + 0, 2 + 5) ∧
    accGravity ⟨0, 100, 100, false, true, false⟩ ((1 : ℝ), (2 : ℝ)) = (1, 2) :=
  ⟨(accGravity_adds_gravity ⟨5, 100, 100, false, true, false⟩ (1, 2)).1
      (show (5 : ℝ) ≠ 0 by norm_num),
   (accGravity_adds_gravity ⟨0, 100, 100, false, true, false⟩ (1, 2)).2 rfl⟩

/-- Claim C5: the pointer-avoidance term contributes only when
`mouseAvoidance` is nonzero, a pointer is supplied, and the squared
distance to the pointer (floored at 1) is strictly below the cached squared
awareness radius; with the pointer absent, `mouseAvoidance` zero, or the
pointer at or beyond the radius, the accumulator is unchanged, and inside
the radius the falloff-law contribution is added. -/
theorem accMouseAvoidance_gated (bp : BoidProperties) (dp : DerivedBoidProperties)
    (self : Boid) (d : ℝ × ℝ) :
    (accMouseAvoidance bp dp self none d = d) ∧
    (∀ m : ℝ × ℝ, bp.mouseAvoidance = 0 → accMouseAvoidance bp dp self (some m) d = d) ∧
    (∀ m : ℝ × ℝ,
      dp.awarenessRadiusSq ≤ max 1 (square (self.x - m.1) + square (self.y - m.2)) →
      accMouseAvoidance bp dp self (some m) d = d) ∧
    (∀ m : ℝ × ℝ, bp.mouseAvoidance ≠ 0 →
      max 1 (square (self.x - m.1) + square (self.y - m.2)) < dp.awarenessRadiusSq →
      accMouseAvoidance bp dp self (some m) d =
        (d.1 + (self.x - m.1) * (bp.mouseAvoidance /
            distanceFactor bp (max 1 (square (self.x - m.1) + square (self.y - m.2)))),
         d.2 + (self.y - m.2) * (bp.mouseAvoidance /
            distanceFactor bp (max 1 (square (self.x - m.1) + square (self.y - m.2)))))) := by
  refine ⟨rfl, ?_, ?_, ?_⟩
  · intro m hm
    simp [accMouseAvoidance, hm]
  · intro m hrad
    simp only [accMouseAvoidance]
    by_cases hm : bp.mouseAvoidance ≠ 0
    · rw [if_pos hm, if_neg (not_lt.mpr hrad)]
    · rw [if_neg hm]
  · intro m hm hlt
    simp only [accMouseAvoidance]
    rw [if_pos hm, if_pos hlt]

/-- Witness for C5: pointer absent, and pointer far outside the awareness
radius, both leave the accumulator unchanged. -/
theorem accMouseAvoidance_gated_witness :
    accMouseAvoidance ⟨1, 2, 1, 50, 10, 1, 1, 1, 50, 5, false⟩ ⟨1, 2500⟩
        ⟨0, 0, 1, 0, 0, 0, 1, 0⟩ none ((3 : ℝ), (4 : ℝ)) = (3, 4) ∧
    accMouseAvoidance ⟨1, 2, 1, 50, 10, 1, 1, 1, 50, 5, false⟩ ⟨1, 2500⟩
        ⟨0, 0, 1, 0, 0, 0, 1, 0⟩ (some (1000, 0)) ((3 : ℝ), (4 : ℝ)) = (3, 4) := by
  constructor
  · exact (accMouseAvoidance_gated _ _ _ _).1
  · refine (accMouseAvoidance_gated _ _ _ _).2.2.1 (1000, 0) ?_
    show (2500 : ℝ) ≤ max 1 (square ((0 : ℝ) - 1000) + square ((0 : ℝ) - 0))
    rw [square, square]
    norm_num

/-- Claim C9: `updateAcceleration` writes only the pending acceleration:
position, velocity, cached speed and the cohort field are unchanged, and
the computed delta is rebuilt from zero, independent of the previous tick's
`deltaVx`/`deltaVy` values. -/
theorem updateAcceleration_frame (bp : BoidProperties) (dp : DerivedBoidProperties)
    (wp : WorldProperties) (self : Boid) (nearBoids : List (Boid × ℝ))
    (mousePosition : Option (ℝ × ℝ)) (a c : ℝ) :
    ((updateAcceleration bp dp wp self nearBoids mousePosition).x = self.x ∧
     (updateAcceleration bp dp wp self nearBoids mousePosition).y = self.y ∧
     (updateAcceleration bp dp wp self nearBoids mousePosition).vx = self.vx ∧
     (updateAcceleration bp dp wp self nearBoids mousePosition).vy = self.vy ∧
     (updateAcceleration bp dp wp self nearBoids mousePosition).speed = self.speed ∧
     (updateAcceleration bp dp wp self nearBoids mousePosition).cohort = self.cohort) ∧
    updateAcceleration bp dp wp { self with deltaVx := a, deltaVy := c } nearBoids mousePosition
      = updateAcceleration bp dp wp self nearBoids mousePosition := by
  exact ⟨⟨rfl, rfl, rfl, rfl, rfl, rfl⟩, rfl⟩

noncomputable section

/-- The effective weight with which one neighbor counts toward the
cohesion/alignment sums: the continuous cohort weight in continuous mode,
and the 0/1 cohort-match indicator in discrete mode. -/
def gateWeight (wp : WorldProperties) (self otherBoid : Boid) : ℝ :=
  if wp.continuousCohorts then cohortWeight wp self otherBoid
  else if (wp.homogenousCohorts ∧ otherBoid.cohort = self.cohort) ∨
      (¬wp.homogenousCohorts ∧ otherBoid.cohort ≠ self.cohort) then 1
  else 0

end

/-- One neighbor step changes the sums by exactly the gate-weighted
contribution of that neighbor. -/
theorem neighborStep_sums (bp : BoidProperties) (wp : WorldProperties) (self : Boid)
    (acc : NeighborSums) (nb : Boid × ℝ) :
    (neighborStep bp wp self acc nb).sumX = acc.sumX + nb.1.x * gateWeight wp self nb.1 ∧
    (neighborStep bp wp self acc nb).sumY = acc.sumY + nb.1.y * gateWeight wp self nb.1 ∧
    (neighborStep bp wp self acc nb).sumVx = acc.sumVx + nb.1.vx * gateWeight wp self nb.1 ∧
    (neighborStep bp wp self acc nb).sumVy = acc.sumVy + nb.1.vy * gateWeight wp self nb.1 ∧
    (neighborStep bp wp self acc nb).numBoids = acc.numBoids + gateWeight wp self nb.1 := by
  by_cases hc : wp.continuousCohorts = true
  · simp [neighborStep, gateWeight, hc]
  · by_cases hh : wp.homogenousCohorts = true <;> by_cases he : nb.1.cohort = self.cohort <;>
      simp [neighborStep, gateWeight, hc, hh, he]

/-- The neighbor loop computes the gate-weighted sums of the neighbor
positions and velocities, and the effective count is the sum of the
weights. -/
theorem neighborPhase_sums (bp : BoidProperties) (wp : WorldProperties) (self : Boid)
    (nearBoids : List (Boid × ℝ)) (d : ℝ × ℝ) :
    (neighborPhase bp wp self nearBoids d).sumX
        = (nearBoids.map (fun nb => nb.1.x * gateWeight wp self nb.1)).sum ∧
    (neighborPhase bp wp self nearBoids d).sumY
        = (nearBoids.map (fun nb => nb.1.y * gateWeight wp self nb.1)).sum ∧
    (neighborPhase bp wp self nearBoids d).sumVx
        = (nearBoids.map (fun nb => nb.1.vx * gateWeight wp self nb.1)).sum ∧
    (neighborPhase bp wp self nearBoids d).sumVy
        = (nearBoids.map (fun nb => nb.1.vy * gateWeight wp self nb.1)).sum ∧
    (neighborPhase bp wp self nearBoids d).numBoids
        = (nearBoids.map (fun nb => gateWeight wp self nb.1)).sum := by
  suffices hgen : ∀ (l : List (Boid × ℝ)) (acc : NeighborSums),
      (l.foldl (neighborStep bp wp self) acc).sumX
          = acc.sumX + (l.map (fun nb => nb.1.x * gateWeight wp self nb.1)).sum ∧
      (l.foldl (neighborStep bp wp self) acc).sumY
          = acc.sumY + (l.map (fun nb => nb.1.y * gateWeight wp self nb.1)).sum ∧
      (l.foldl (neighborStep bp wp self) acc).sumVx
          = acc.sumVx + (l.map (fun nb => nb.1.vx * gateWeight wp self nb.1)).sum ∧
      (l.foldl (neighborStep bp wp self) acc).sumVy
          = acc.sumVy + (l.map (fun nb => nb.1.vy * gateWeight wp self nb.1)).sum ∧
      (l.foldl (neighborStep bp wp self) acc).numBoids
          = acc.numBoids + (l.map (fun nb => gateWeight wp self nb.1)).sum by
    have h := hgen nearBoids ⟨0, 0, 0, 0, 0, d⟩
    simpa [neighborPhase] using h
  intro l
  induction l with
  | nil => intro acc; simp
  | cons nb l ih =>
    intro acc
    obtain ⟨h1, h2, h3, h4, h5⟩ := ih (neighborStep bp wp self acc nb)
    obtain ⟨g1, g2, g3, g4, g5⟩ := neighborStep_sums bp wp self acc nb
    simp only [List.foldl_cons, List.map_cons, List.sum_cons]
    exact ⟨by rw [h1, g1]; ring, by rw [h2, g2]; ring, by rw [h3, g3]; ring,
      by rw [h4, g4]; ring, by rw [h5, g5]; ring⟩

/-- Claim C6: when the effective (cohort-weighted) neighbor count is
positive, the cohesion/alignment step adds to the accumulator the cohesion
term and the alignment term `(avgVelocity - self velocity) * alignment`,
where the average velocity is the cohort-weighted velocity sum divided by
the effective count; the quantity subtracted is the agent's current
velocity `(vx, vy)`, not its partially accumulated acceleration delta. -/
theorem accCohesionAlignment_velocity (bp : BoidProperties) (wp : WorldProperties)
    (self : Boid) (nearBoids : List (Boid × ℝ)) (d : ℝ × ℝ)
    (hpos : 0 < (neighborPhase bp wp self nearBoids d).numBoids) :
    accCohesionAlignment bp self (neighborPhase bp wp self nearBoids d) =
      ((neighborPhase bp wp self nearBoids d).delta.1 +
         ((neighborPhase bp wp self nearBoids d).sumX /
            (neighborPhase bp wp self nearBoids d).numBoids - self.x) * bp.cohesion +
         ((nearBoids.map (fun nb => nb.1.vx * gateWeight wp self nb.1)).sum /
            (nearBoids.map (fun nb => gateWeight wp self nb.1)).sum - self.vx) * bp.alignment,
       (neighborPhase bp wp self nearBoids d).delta.2 +
         ((neighborPhase bp wp self nearBoids d).sumY /
            (neighborPhase bp wp self nearBoids d).numBoids - self.y) * bp.cohesion +
         ((nearBoids.map (fun nb => nb.1.vy * gateWeight wp self nb.1)).sum /
            (nearBoids.map (fun nb => gateWeight wp self nb.1)).sum - self.vy) * bp.alignment) := by
  obtain ⟨h1, h2, h3, h4, h5⟩ := neighborPhase_sums bp wp self nearBoids d
  rw [accCohesionAlignment, if_pos hpos, h3, h4, h5]

/-- Concrete witness inputs: a discrete homogeneous world with one
same-cohort neighbor at distance 5. -/
noncomputable def bpWitness : BoidProperties := ⟨1, 2, 1, 50, 10, 1, 1, 1, 50, 5, false⟩

noncomputable def wpWitness : WorldProperties := ⟨0, 100, 100, false, true, false⟩

noncomputable def selfWitness : Boid := ⟨0, 0, 1, 0, 0, 0, 1, 0⟩

noncomputable def nbWitness : Boid := ⟨5, 0, 0, 1, 0, 0, 1, 0⟩

/-- Witness for C6: one same-cohort neighbor in discrete homogeneous mode
gives effective count 1, and the theorem applies. -/
theorem accCohesionAlignment_velocity_witness :
    0 < (neighborPhase bpWitness wpWitness selfWitness [(nbWitness, 25)] (0, 0)).numBoids ∧
    accCohesionAlignment bpWitness selfWitness
        (neighborPhase bpWitness wpWitness selfWitness [(nbWitness, 25)] (0, 0)) =
      ((neighborPhase bpWitness wpWitness selfWitness [(nbWitness, 25)] (0, 0)).delta.1 +
         ((neighborPhase bpWitness wpWitness selfWitness [(nbWitness, 25)] (0, 0)).sumX /
            (neighborPhase bpWitness wpWitness selfWitness [(nbWitness, 25)] (0, 0)).numBoids -
            selfWitness.x) * bpWitness.cohesion +
         (([(nbWitness, (25 : ℝ))].map
              (fun nb => nb.1.vx * gateWeight wpWitness selfWitness nb.1)).sum /
            ([(nbWitness, (25 : ℝ))].map
              (fun nb => gateWeight wpWitness selfWitness nb.1)).sum -
            selfWitness.vx) * bpWitness.alignment,
       (neighborPhase bpWitness wpWitness selfWitness [(nbWitness, 25)] (0, 0)).delta.2 +
         ((neighborPhase bpWitness wpWitness selfWitness [(nbWitness, 25)] (0, 0)).sumY /
            (neighborPhase bpWitness wpWitness selfWitness [(nbWitness, 25)] (0, 0)).numBoids -
            selfWitness.y) * bpWitness.cohesion +
         (([(nbWitness, (25 : ℝ))].map
              (fun nb => nb.1.vy * gateWeight wpWitness selfWitness nb.1)).sum /
            ([(nbWitness, (25 : ℝ))].map
              (fun nb => gateWeight wpWitness selfWitness nb.1)).sum -
            selfWitness.vy) * bpWitness.alignment) := by
  have hpos :
      0 < (neighborPhase bpWitness wpWitness selfWitness [(nbWitness, 25)] (0, 0)).numBoids := by
    simp [neighborPhase, neighborStep, bpWitness, wpWitness, selfWitness, nbWitness]
  exact ⟨hpos,
    accCohesionAlignment_velocity bpWitness wpWitness selfWitness [(nbWitness, 25)] (0, 0) hpos⟩

/-- Helper: the Euclidean norm of a uniformly rescaled velocity, for a
non-negative scale. -/
theorem norm_scale (vx vy c : ℝ) (hc : 0 ≤ c) :
    Real.sqrt (square (vx * c) + square (vy * c)) = Real.sqrt (square vx + square vy) * c := by
  have h1 : square (vx * c) + square (vy * c) = (square vx + square vy) * (c * c) := by
    simp only [square]
    ring
  have h2 : (0 : ℝ) ≤ square vx + square vy := by
    simp only [square]
    exact add_nonneg (mul_self_nonneg vx) (mul_self_nonneg vy)
  rw [h1, Real.sqrt_mul h2, Real.sqrt_mul_self hc]

/-- Helper: the Euclidean norm vanishes exactly on the zero vector. -/
theorem norm_zero_iff (vx vy : ℝ) :
    Real.sqrt (square vx + square vy) = 0 ↔ vx = 0 ∧ vy = 0 := by
  have h2 : (0 : ℝ) ≤ square vx + square vy := by
    simp only [square]
    exact add_nonneg (mul_self_nonneg vx) (mul_self_nonneg vy)
  rw [Real.sqrt_eq_zero h2]
  constructor
  · intro h
    have hx : vx * vx = 0 := by
      simp only [square] at h
      nlinarith [mul_self_nonneg vx, mul_self_nonneg vy]
    have hy : vy * vy = 0 := by
      simp only [square] at h
      nlinarith [mul_self_nonneg vx, mul_self_nonneg vy]
    exact ⟨mul_self_eq_zero.mp hx, mul_self_eq_zero.mp hy⟩
  · rintro ⟨rfl, rfl⟩
    simp [square]

/-- Claim C10: after `updateVelocity`, the cached `speed` field equals the
Euclidean magnitude of the (possibly clamped) velocity under exact
arithmetic, and a post-update velocity of exactly `(0, 0)` keeps speed 0 and
velocity `(0, 0)` (assuming a non-negative `maxSpeed`, as configured). -/
theorem updateVelocity_speed_cache (bp : BoidProperties) (b : Boid) (hmax : 0 ≤ bp.maxSpeed) :
    (updateVelocity bp b).speed =
      Real.sqrt (square (updateVelocity bp b).vx + square (updateVelocity bp b).vy) ∧
    (b.vx + b.deltaVx = 0 → b.vy + b.deltaVy = 0 →
      (updateVelocity bp b).speed = 0 ∧ (updateVelocity bp b).vx = 0 ∧
        (updateVelocity bp b).vy = 0) := by
  simp only [updateVelocity]
  split_ifs with h1 h2
  · have hs0 : 0 < Real.sqrt (square (b.vx + b.deltaVx) + square (b.vy + b.deltaVy)) := h1.2
    have hminpos : 0 < bp.minSpeed := lt_trans hs0 h1.1
    have hc : 0 ≤ bp.minSpeed / Real.sqrt (square (b.vx + b.deltaVx) + square (b.vy + b.deltaVy)) :=
      le_of_lt (div_pos hminpos hs0)
    constructor
    · dsimp only
      rw [norm_scale _ _ _ hc]
      field_simp
    · intro hx hy
      exfalso
      rw [hx, hy] at hs0
      simp [square] at hs0
  · have hs0 : 0 < Real.sqrt (square (b.vx + b.deltaVx) + square (b.vy + b.deltaVy)) :=
      lt_of_le_of_lt hmax h2
    have hc : 0 ≤ bp.maxSpeed / Real.sqrt (square (b.vx + b.deltaVx) + square (b.vy + b.deltaVy)) :=
      div_nonneg hmax hs0.le
    constructor
    · dsimp only
      rw [norm_scale _ _ _ hc]
      field_simp
    · intro hx hy
      exfalso
      rw [hx, hy] at hs0
      simp [square] at hs0
  · constructor
    · dsimp only
    · intro hx hy
      dsimp only
      rw [hx, hy]
      simp [square]

/-- Witness for C10: a unit-speed agent with zero pending acceleration. -/
theorem updateVelocity_speed_cache_witness :
    (0 : ℝ) ≤ 2 ∧
    (updateVelocity bpWitness selfWitness).speed =
      Real.sqrt (square (updateVelocity bpWitness selfWitness).vx +
        square (updateVelocity bpWitness selfWitness).vy) :=
  ⟨by norm_num,
    (updateVelocity_speed_cache bpWitness selfWitness (show (0 : ℝ) ≤ 2 by norm_num)).1⟩

noncomputable section

/-- Derived-cache witness values consistent with `bpWitness`
(`maxAcceleration = 1`, `awarenessRadius = 50`). -/
def dpWitness : DerivedBoidProperties := ⟨1, 2500⟩

/-- An agent whose pending acceleration exactly cancels its velocity. -/
def cancelBoid : Boid := ⟨0, 0, 1, 0, -1, 0, 1, 0⟩

end

/-- Claim C3, counterexample: with `minSpeed = 1 ≤ maxSpeed = 2`, an agent
with velocity `(1, 0)` and pending acceleration `(-1, 0)` has nonzero speed
before integration, yet after integration its velocity is exactly `(0, 0)`:
the zero speed is left unclamped and falls below `minSpeed`. -/
theorem integrate_speed_counterexample :
    Real.sqrt (square cancelBoid.vx + square cancelBoid.vy) ≠ 0 ∧
    bpWitness.minSpeed ≤ bpWitness.maxSpeed ∧
    ¬(bpWitness.minSpeed ≤
        Real.sqrt (square (integrate bpWitness cancelBoid).vx +
          square (integrate bpWitness cancelBoid).vy)) := by
  refine ⟨?_, by norm_num [bpWitness], ?_⟩
  · rw [Ne, norm_zero_iff]
    simp [cancelBoid]
  · have hvx : (integrate bpWitness cancelBoid).vx = 0 ∧
        (integrate bpWitness cancelBoid).vy = 0 := by
      simp only [integrate, updatePosition, updateVelocity, cancelBoid, bpWitness]
      norm_num [square]
    rw [hvx.1, hvx.2]
    simp [square, bpWitness]

/-- Helper: the velocity norm after `updateVelocity`, when the summed
velocity is nonzero, lies in `[minSpeed, maxSpeed]`. -/
theorem updateVelocity_norm_clamped (bp : BoidProperties) (b : Boid)
    (hmin : 0 ≤ bp.minSpeed) (hminmax : bp.minSpeed ≤ bp.maxSpeed)
    (hnz : ¬(b.vx + b.deltaVx = 0 ∧ b.vy + b.deltaVy = 0)) :
    bp.minSpeed ≤
      Real.sqrt (square (updateVelocity bp b).vx + square (updateVelocity bp b).vy) ∧
    Real.sqrt (square (updateVelocity bp b).vx + square (updateVelocity bp b).vy)
      ≤ bp.maxSpeed := by
  have hpos : 0 < Real.sqrt (square (b.vx + b.deltaVx) + square (b.vy + b.deltaVy)) := by
    have h0 : Real.sqrt (square (b.vx + b.deltaVx) + square (b.vy + b.deltaVy)) ≠ 0 :=
      fun h => hnz ((norm_zero_iff _ _).mp h)
    exact lt_of_le_of_ne (Real.sqrt_nonneg _) (Ne.symm h0)
  simp only [updateVelocity]
  split_ifs with h1 h2
  · have hminpos : 0 < bp.minSpeed := lt_trans h1.2 h1.1
    dsimp only
    rw [norm_scale _ _ _ (le_of_lt (div_pos hminpos hpos))]
    have heq : Real.sqrt (square (b.vx + b.deltaVx) + square (b.vy + b.deltaVy)) *
        (bp.minSpeed / Real.sqrt (square (b.vx + b.deltaVx) + square (b.vy + b.deltaVy)))
        = bp.minSpeed := by
      field_simp
    rw [heq]
    exact ⟨le_refl _, hminmax⟩
  · have hmax0 : 0 ≤ bp.maxSpeed := le_trans hmin hminmax
    dsimp only
    rw [norm_scale _ _ _ (div_nonneg hmax0 hpos.le)]
    have heq : Real.sqrt (square (b.vx + b.deltaVx) + square (b.vy + b.deltaVy)) *
        (bp.maxSpeed / Real.sqrt (square (b.vx + b.deltaVx) + square (b.vy + b.deltaVy)))
        = bp.maxSpeed := by
      field_simp
    rw [heq]
    exact ⟨hminmax, le_refl _⟩
  · dsimp only
    push_neg at h1
    exact ⟨not_lt.mp (fun hlt => absurd (h1 hlt) (not_le.mpr hpos)), not_lt.mp h2⟩

/-- Claim C3, amended: for every agent whose velocity *after adding the
pending acceleration* is nonzero (the claim's pre-integration speed
condition does not suffice, see the counterexample), the post-integration
speed lies in `[minSpeed, maxSpeed]`, assuming `0 ≤ minSpeed ≤ maxSpeed`. -/
theorem integrate_speed_amended (bp : BoidProperties) (b : Boid)
    (hmin : 0 ≤ bp.minSpeed) (hminmax : bp.minSpeed ≤ bp.maxSpeed)
    (hnz : ¬(b.vx + b.deltaVx = 0 ∧ b.vy + b.deltaVy = 0)) :
    bp.minSpeed ≤ Real.sqrt (square (integrate bp b).vx + square (integrate bp b).vy) ∧
    Real.sqrt (square (integrate bp b).vx + square (integrate bp b).vy) ≤ bp.maxSpeed :=
  updateVelocity_norm_clamped bp (updatePosition b) hmin hminmax hnz

/-- Witness for C3's amended theorem: a unit-velocity agent with no pending
acceleration keeps speed 1, inside `[1, 2]`. -/
theorem integrate_speed_amended_witness :
    (0 : ℝ) ≤ bpWitness.minSpeed ∧ bpWitness.minSpeed ≤ bpWitness.maxSpeed ∧
    ¬(selfWitness.vx + selfWitness.deltaVx = 0 ∧ selfWitness.vy + selfWitness.deltaVy = 0) ∧
    bpWitness.minSpeed ≤
      Real.sqrt (square (integrate bpWitness selfWitness).vx +
        square (integrate bpWitness selfWitness).vy) ∧
    Real.sqrt (square (integrate bpWitness selfWitness).vx +
        square (integrate bpWitness selfWitness).vy) ≤ bpWitness.maxSpeed := by
  have hmin : (0 : ℝ) ≤ bpWitness.minSpeed := by norm_num [bpWitness]
  have hminmax : bpWitness.minSpeed ≤ bpWitness.maxSpeed := by norm_num [bpWitness]
  have hnz : ¬(selfWitness.vx + selfWitness.deltaVx = 0 ∧
      selfWitness.vy + selfWitness.deltaVy = 0) := by
    norm_num [selfWitness]
  obtain ⟨hlo, hhi⟩ := integrate_speed_amended bpWitness selfWitness hmin hminmax hnz
  exact ⟨hmin, hminmax, hnz, hlo, hhi⟩

/-- Helper: the capping step yields a vector of magnitude at most
`maxAcceleration`, and rescales to exactly that magnitude, preserving
direction, whenever the input exceeds the cap. -/
theorem capAcceleration_spec (bp : BoidProperties) (dp : DerivedBoidProperties) (d : ℝ × ℝ)
    (hsq : dp.maxAccelerationSq = square bp.maxAcceleration)
    (hpos : 0 < bp.maxAcceleration) :
    Real.sqrt (square (capAcceleration bp dp d).1 + square (capAcceleration bp dp d).2)
      ≤ bp.maxAcceleration ∧
    (dp.maxAccelerationSq < square d.1 + square d.2 →
      Real.sqrt (square (capAcceleration bp dp d).1 + square (capAcceleration bp dp d).2)
        = bp.maxAcceleration ∧
      ∃ c : ℝ, 0 < c ∧ capAcceleration bp dp d = (d.1 * c, d.2 * c)) := by
  simp only [capAcceleration]
  split_ifs with hgt
  · have hS0 : 0 < square d.1 + square d.2 := by
      rw [hsq] at hgt
      have hq : (0 : ℝ) ≤ square bp.maxAcceleration := by
        simp only [square]
        exact mul_self_nonneg _
      linarith
    have hsq0 : 0 < Real.sqrt (square d.1 + square d.2) := Real.sqrt_pos.mpr hS0
    have hc : 0 < bp.maxAcceleration / Real.sqrt (square d.1 + square d.2) :=
      div_pos hpos hsq0
    have hnorm :
        Real.sqrt
          (square (d.1 * (bp.maxAcceleration / Real.sqrt (square d.1 + square d.2))) +
            square (d.2 * (bp.maxAcceleration / Real.sqrt (square d.1 + square d.2))))
          = bp.maxAcceleration := by
      rw [norm_scale _ _ _ hc.le]
      field_simp
    constructor
    · dsimp only
      rw [hnorm]
    · intro _
      exact ⟨by dsimp only; rw [hnorm],
        bp.maxAcceleration / Real.sqrt (square d.1 + square d.2), hc, rfl⟩
  · push_neg at hgt
    constructor
    · calc Real.sqrt (square d.1 + square d.2)
          ≤ Real.sqrt (square bp.maxAcceleration) := Real.sqrt_le_sqrt (hsq ▸ hgt)
        _ = bp.maxAcceleration := by
            rw [square]
            exact Real.sqrt_mul_self hpos.le
    · intro hlt
      exact absurd hlt (not_lt.mpr hgt)

/-- Claim C2: after `updateAcceleration`, the magnitude of the pending
acceleration `(deltaVx, deltaVy)` is at most `maxAcceleration` (with the
squared cache consistent and `maxAcceleration` positive), and when the
uncapped accumulated delta exceeds that bound the written delta is the
uncapped delta rescaled by a positive factor to exactly `maxAcceleration`
magnitude. -/
theorem updateAcceleration_capped (bp : BoidProperties) (dp : DerivedBoidProperties)
    (wp : WorldProperties) (self : Boid) (nearBoids : List (Boid × ℝ))
    (mousePosition : Option (ℝ × ℝ))
    (hsq : dp.maxAccelerationSq = square bp.maxAcceleration)
    (hpos : 0 < bp.maxAcceleration) :
    Real.sqrt
        (square (updateAcceleration bp dp wp self nearBoids mousePosition).deltaVx +
          square (updateAcceleration bp dp wp self nearBoids mousePosition).deltaVy)
      ≤ bp.maxAcceleration ∧
    (dp.maxAccelerationSq <
        square (uncappedDelta bp dp wp self nearBoids mousePosition).1 +
          square (uncappedDelta bp dp wp self nearBoids mousePosition).2 →
      Real.sqrt
          (square (updateAcceleration bp dp wp self nearBoids mousePosition).deltaVx +
            square (updateAcceleration bp dp wp self nearBoids mousePosition).deltaVy)
        = bp.maxAcceleration ∧
      ∃ c : ℝ, 0 < c ∧
        (updateAcceleration bp dp wp self nearBoids mousePosition).deltaVx
          = (uncappedDelta bp dp wp self nearBoids mousePosition).1 * c ∧
        (updateAcceleration bp dp wp self nearBoids mousePosition).deltaVy
          = (uncappedDelta bp dp wp self nearBoids mousePosition).2 * c) := by
  have h := capAcceleration_spec bp dp (uncappedDelta bp dp wp self nearBoids mousePosition)
    hsq hpos
  refine ⟨h.1, fun hgt => ?_⟩
  obtain ⟨heq, c, hc, hpair⟩ := h.2 hgt
  exact ⟨heq, c, hc, congrArg Prod.fst hpair, congrArg Prod.snd hpair⟩

/-- Witness for C2 with a consistent cache (`maxAcceleration = 1`,
`maxAccelerationSq = 1`), no neighbors and no pointer. -/
theorem updateAcceleration_capped_witness :
    dpWitness.maxAccelerationSq = square bpWitness.maxAcceleration ∧
    (0 : ℝ) < bpWitness.maxAcceleration ∧
    Real.sqrt
        (square (updateAcceleration bpWitness dpWitness wpWitness selfWitness [] none).deltaVx +
          square (updateAcceleration bpWitness dpWitness wpWitness selfWitness [] none).deltaVy)
      ≤ bpWitness.maxAcceleration := by
  have hsq : dpWitness.maxAccelerationSq = square bpWitness.maxAcceleration := by
    norm_num [dpWitness, bpWitness, square]
  have hpos : (0 : ℝ) < bpWitness.maxAcceleration := by norm_num [bpWitness]
  exact ⟨hsq, hpos,
    (updateAcceleration_capped bpWitness dpWitness wpWitness selfWitness [] none hsq hpos).1⟩

end Engine
